import Mathlib

/-!
Verification of the repo-fetcher CLI (a GitHub repository fetch / sort /
format / analyze / batch-update tool).

The TypeScript sources are shallowly embedded here:
* `src/cli/types.ts`      → the structures below (`GitHubRepository`, …);
* `src/cli/github-service.ts` → `getAuthenticationInfo`, `fetchRepositories`,
  `batchUpdateRepositories`, `findRepositoriesNeedingUpdate`;
* `src/cli/formatters.ts` → `formatAsCsv`, `formatAsJsonDoc`,
  `formatAnalysisReport`, `getOutputFormat`;
* `src/cli/edit-workflows.ts` → `allProblematicRepos`;
* the sort comparator of the README code listing → `sortByStars`.

Network calls are modelled by explicit oracle arguments (the repository list
held by the server, or the outcome of a single update call); JavaScript
truthiness on optional strings is modelled by `jsStringTruthy`.
-/

namespace RepoFetcher

/-- Owner sub-object of a repository (src/cli/types.ts, field `owner`). -/
structure RepoOwner where
  login : String
  deriving DecidableEq, Repr

/-- One remote repository's observable metadata (src/cli/types.ts,
`GitHubRepository`).  `description`, `homepage` and `language` are nullable
in the wire format, hence `Option String`.  The source field `private` is a
Lean keyword and is called `isPrivate` here. -/
structure GitHubRepository where
  id : Nat
  name : String
  description : Option String
  homepage : Option String
  html_url : String
  language : Option String
  stargazers_count : Nat
  forks_count : Nat
  isPrivate : Bool
  owner : RepoOwner
  created_at : String
  updated_at : String
  pushed_at : String
  deriving DecidableEq, Repr

/-- Authenticated user as returned by `users.getAuthenticated`
(src/cli/types.ts, `GitHubUser`); only the field the code reads. -/
structure GitHubUser where
  login : String
  deriving DecidableEq, Repr

/-- Sparse update payload (src/cli/types.ts, `RepositoryUpdateData`). -/
structure RepositoryUpdateData where
  name : Option String := none
  description : Option String := none
  homepage : Option String := none
  isPrivate : Option Bool := none
  has_issues : Option Bool := none
  has_projects : Option Bool := none
  has_wiki : Option Bool := none
  deriving DecidableEq, Repr

/-- Result of the authentication-info resolution step
(src/cli/types.ts, `AuthenticationResult`). -/
structure AuthenticationResult where
  username : String
  isAuthenticated : Bool
  deriving DecidableEq, Repr

/-- JavaScript truthiness of an optional string: `undefined`/`null` and the
empty string are falsy, every other string is truthy. -/
def jsStringTruthy : Option String → Bool
  | none => false
  | some s => s ≠ ""

/-- JavaScript `s.toLowerCase()` (character-wise lowering; the sources only
rely on ASCII case folding). -/
def jsToLower (s : String) : String :=
  String.mk (s.data.map Char.toLower)

/-- JavaScript `s.startsWith(pat)`. -/
def jsStartsWith (s pat : String) : Bool :=
  pat.data.isPrefixOf s.data

/-- Core of character splitting: the first group and the remaining groups
of `l` split at `sep`. -/
def splitOnCharCore (sep : Char) : List Char → List Char × List (List Char)
  | [] => ([], [])
  | c :: rest =>
    let fg := splitOnCharCore sep rest
    if c = sep then ([], fg.1 :: fg.2) else (c :: fg.1, fg.2)

/-- JavaScript `s.split(sep)` for a one-character separator; the result is
never empty (`"".split(".")` is `[""]`). -/
def splitOnChar (sep : Char) (l : List Char) : List (List Char) :=
  (splitOnCharCore sep l).1 :: (splitOnCharCore sep l).2

/-- JavaScript `s.trim()` (whitespace stripped from both ends). -/
def jsTrim (s : String) : String :=
  String.mk (((s.data.dropWhile Char.isWhitespace).reverse.dropWhile
    Char.isWhitespace).reverse)

/-- JavaScript `o || d` on an optional string: the string itself when
truthy, otherwise the default `d`. -/
def jsOr (o : Option String) (d : String) : String :=
  match o with
  | none => d
  | some s => if s = "" then d else s

/-- Bool-valued substring test on char lists (JavaScript
`String.prototype.includes`). -/
def hasSubstrAux : List Char → List Char → Bool
  | [], pat => pat.isEmpty
  | c :: rest, pat => pat.isPrefixOf (c :: rest) || hasSubstrAux rest pat

/-- JavaScript `s.includes(pat)`. -/
def jsIncludes (s pat : String) : Bool :=
  hasSubstrAux s.data pat.data

/-! ## GitHubService (src/cli/github-service.ts) -/

/-- Model of `GitHubService.getAuthenticationInfo` (github-service.ts:32).
The outcome of the `users.getAuthenticated` network call is passed in as
`authUser`.  A falsy token (absent or empty) short-circuits to anonymous;
an authentication failure is caught and downgraded to anonymous. -/
def getAuthenticationInfo (token : Option String)
    (authUser : Except String GitHubUser) : AuthenticationResult :=
  if jsStringTruthy token = false then { username := "", isAuthenticated := false }
  else
    match authUser with
    | Except.ok user => { username := user.login, isAuthenticated := true }
    | Except.error _ => { username := "", isAuthenticated := false }

/-- A single Octokit list call (`repos.listForUser` /
`repos.listForAuthenticatedUser`) with `per_page := perPage` and no `page`
parameter: the server answers with the first page, i.e. the first
`perPage` of the repositories it holds, in server order. -/
def listReposSinglePage (server : List GitHubRepository) (perPage : Nat) :
    List GitHubRepository :=
  server.take perPage

/-- Model of `GitHubService.fetchRepositories` (github-service.ts:51).
The source issues exactly one list call with `per_page: 100` on one of the
two endpoints and returns its data; there is no pagination loop.
`authedServer` / `publicServer` are the repository lists the two endpoints
hold for this principal / username. -/
def fetchRepositories (authedServer publicServer : List GitHubRepository)
    (isAuthenticated : Bool) : List GitHubRepository :=
  if isAuthenticated then listReposSinglePage authedServer 100
  else listReposSinglePage publicServer 100

/-- One entry of a batch update (src/cli/github-service.ts:148, the element
type of the `updates` argument). -/
structure UpdateRequest where
  owner : String
  repo : String
  data : RepositoryUpdateData
  deriving DecidableEq, Repr

/-- Per-item outcome of a batch update (the element type of the result of
`batchUpdateRepositories`). -/
structure BatchUpdateOutcome where
  success : Bool
  repo : String
  error : Option String
  deriving DecidableEq, Repr

/-- Behaviour of one `updateRepository` network call: either the updated
repository or a thrown error, whose message the batch loop records. -/
def UpdateOracle : Type :=
  UpdateRequest → Except String GitHubRepository

/-- One iteration of the batch loop (github-service.ts:162): try the
update, and push a success or a failure record for this item. -/
def updateRepositoryOutcome (oracle : UpdateOracle) (u : UpdateRequest) :
    BatchUpdateOutcome :=
  match oracle u with
  | Except.ok _ => { success := true, repo := u.owner ++ "/" ++ u.repo, error := none }
  | Except.error e => { success := false, repo := u.owner ++ "/" ++ u.repo, error := some e }

/-- Model of `GitHubService.batchUpdateRepositories` (github-service.ts:148):
a sequential `for` loop over the requests, one outcome pushed per request,
failures caught inside the loop body. -/
def batchUpdateRepositories (oracle : UpdateOracle) :
    List UpdateRequest → List BatchUpdateOutcome
  | [] => []
  | u :: rest => updateRepositoryOutcome oracle u :: batchUpdateRepositories oracle rest

/-- The three defect categories (return type of
`findRepositoriesNeedingUpdate`). -/
structure AnalysisResult where
  missingDescription : List GitHubRepository
  missingHomepage : List GitHubRepository
  brokenHomepage : List GitHubRepository
  deriving DecidableEq, Repr

/-- Filter predicate for `missingDescription` (github-service.ts:200):
`!repo.description || repo.description.trim() === ""`. -/
def missingDescriptionCheck (repo : GitHubRepository) : Bool :=
  match repo.description with
  | none => true
  | some s => s = "" || jsTrim s = ""

/-- Filter predicate for `missingHomepage` (github-service.ts:204):
`!repo.homepage || repo.homepage.trim() === ""`. -/
def missingHomepageCheck (repo : GitHubRepository) : Bool :=
  match repo.homepage with
  | none => true
  | some s => s = "" || jsTrim s = ""

/-- Filter predicate for `brokenHomepage` (github-service.ts:209): a falsy
homepage is not broken; otherwise the homepage is lowercased and flagged
when it starts with none of `http://`, `https://`, `www.` or contains
`localhost` or `127.0.0.1`. -/
def brokenHomepageCheck (repo : GitHubRepository) : Bool :=
  match repo.homepage with
  | none => false
  | some h =>
    if h = "" then false
    else
      let homepage := jsToLower h
      (!jsStartsWith homepage "http://" && !jsStartsWith homepage "https://" &&
        !jsStartsWith homepage "www.")
      || jsIncludes homepage "localhost"
      || jsIncludes homepage "127.0.0.1"

/-- Model of `GitHubService.findRepositoriesNeedingUpdate`
(github-service.ts:190): three filters over the input list. -/
def findRepositoriesNeedingUpdate (repositories : List GitHubRepository) :
    AnalysisResult :=
  { missingDescription := repositories.filter missingDescriptionCheck
    missingHomepage := repositories.filter missingHomepageCheck
    brokenHomepage := repositories.filter brokenHomepageCheck }

/-! ## Formatters (src/cli/formatters.ts) -/

/-- Output encodings (src/cli/types.ts, `OutputFormat`). -/
inductive OutputFormat where
  | txt
  | json
  | csv
  deriving DecidableEq, Repr

/-- Model of `getOutputFormat` (formatters.ts:191):
`filename.toLowerCase().split(".").pop()` matched against `json` / `csv`,
with `txt` for everything else.  `splitOn` never returns an empty list, so
`pop` is `getLastD`. -/
def getOutputFormat (filename : String) : OutputFormat :=
  let extension :=
    String.mk (((splitOnChar '.' (jsToLower filename).data)).getLastD [])
  match extension with
  | "json" => OutputFormat.json
  | "csv" => OutputFormat.csv
  | _ => OutputFormat.txt

/-- JavaScript `Array.prototype.join(",")` on a list of strings. -/
def joinComma : List String → String
  | [] => ""
  | [f] => f
  | f :: rest => f ++ "," ++ joinComma rest

/-- The CSV header row entries (formatters.ts:87). -/
def csvHeaders : List String :=
  ["Name", "Description", "Stars", "Forks", "Language", "Private",
   "Homepage", "Repository URL", "Created At", "Updated At", "Last Push"]

/-- Wrapping of a CSV field in double quotes, as done by the template
literals of formatters.ts:111-121: the raw value between two quote
characters, with no escaping of the value itself. -/
def csvQuote (s : String) : String :=
  "\"" ++ s ++ "\""

/-- The eleven entries of one CSV data row (formatters.ts:110-122).  The
string-valued fields are quoted; `stargazers_count`, `forks_count` and the
`private` flag are rendered bare. -/
def csvRowFields (repo : GitHubRepository) : List String :=
  [csvQuote repo.name,
   csvQuote (jsOr repo.description ""),
   toString repo.stargazers_count,
   toString repo.forks_count,
   csvQuote (jsOr repo.language ""),
   (if repo.isPrivate then "true" else "false"),
   csvQuote (jsOr repo.homepage ""),
   csvQuote repo.html_url,
   csvQuote repo.created_at,
   csvQuote repo.updated_at,
   csvQuote repo.pushed_at]

/-- One CSV data row, `row.join(",")` (formatters.ts:123), without the
trailing newline that `formatAsCsv` appends. -/
def csvRow (repo : GitHubRepository) : String :=
  joinComma (csvRowFields repo)

/-- Model of `formatAsCsv` (formatters.ts:83): three comment lines, a
blank line, the header row and one row per repository. -/
def formatAsCsv (repos : List GitHubRepository) (username : String) : String :=
  "# GitHub Profile: https://github.com/" ++ username ++ "\n"
  ++ "# Total Repositories: " ++ toString repos.length ++ "\n"
  ++ "# Public: " ++ toString (repos.filter (fun r => !r.isPrivate)).length
  ++ ", Private: " ++ toString (repos.filter (fun r => r.isPrivate)).length ++ "\n\n"
  ++ joinComma csvHeaders ++ "\n"
  ++ String.join (repos.map (fun repo => csvRow repo ++ "\n"))

/-- JSON document values, the shape produced by `JSON.stringify`.
`formatAsJson` serialises such a value; `JSON.parse` of the serialised text
yields the same value back, so the format-then-parse round trip of
formatters.ts is stated on these document values. -/
inductive Json where
  | null
  | bool (b : Bool)
  | num (n : Nat)
  | str (s : String)
  | arr (elems : List Json)
  | obj (fields : List (String × Json))
  deriving Repr, Inhabited

/-- Nullable string to JSON value. -/
def jsonOptStr : Option String → Json
  | none => Json.null
  | some s => Json.str s

/-- Key lookup in a JSON object (first matching key). -/
def Json.lookup : Json → String → Option Json
  | Json.obj fields, key => List.lookup key fields
  | _, _ => none

/-- Elements of a JSON array. -/
def Json.asArr : Json → Option (List Json)
  | Json.arr elems => some elems
  | _ => none

/-- One element of the `repositories` array built by `formatAsJson`
(formatters.ts:60-74), with its canonical field names and key order. -/
def formattedRepositoryJson (repo : GitHubRepository) : Json :=
  Json.obj
    [("name", Json.str repo.name),
     ("description", jsonOptStr repo.description),
     ("stars", Json.num repo.stargazers_count),
     ("forks", Json.num repo.forks_count),
     ("language", jsonOptStr repo.language),
     ("private", Json.bool repo.isPrivate),
     ("homepage", jsonOptStr repo.homepage),
     ("repository_url", Json.str repo.html_url),
     ("created_at", Json.str repo.created_at),
     ("updated_at", Json.str repo.updated_at),
     ("pushed_at", Json.str repo.pushed_at)]

/-- The JSON document built by `formatAsJson` (formatters.ts:50-77); the
source returns `JSON.stringify` of exactly this object. -/
def formatAsJsonDoc (repos : List GitHubRepository) (username : String) : Json :=
  Json.obj
    [("profile", Json.str ("https://github.com/" ++ username)),
     ("username", Json.str username),
     ("total_repositories", Json.num repos.length),
     ("public_repositories", Json.num (repos.filter (fun r => !r.isPrivate)).length),
     ("private_repositories", Json.num (repos.filter (fun r => r.isPrivate)).length),
     ("repositories", Json.arr (repos.map formattedRepositoryJson))]

/-- Reading the count fields back out of a parsed `formatAsJson` document. -/
def jsonCounts (doc : Json) : Option Json × Option Json × Option Json :=
  (doc.lookup "total_repositories",
   doc.lookup "public_repositories",
   doc.lookup "private_repositories")

/-- Reading the repository names back out of a parsed `formatAsJson`
document: the `name` field of each element of `repositories`. -/
def jsonRepositoryNames (doc : Json) : Option (List Json) :=
  ((doc.lookup "repositories").bind Json.asArr).map
    (List.map (fun j => (j.lookup "name").getD Json.null))

/-- A run of `n` copies of character `c` (JavaScript `c.repeat(n)`). -/
def charRun (c : Char) (n : Nat) : String :=
  String.mk (List.replicate n c)

/-- One entry of the missing-description section (formatters.ts:155-160). -/
def reportMissingDescriptionEntry (repo : GitHubRepository) : String :=
  "- " ++ repo.name ++ "\n"
  ++ "  URL: " ++ repo.html_url ++ "\n"
  ++ "  Language: " ++ jsOr repo.language "Not specified" ++ "\n"
  ++ "  Stars: " ++ toString repo.stargazers_count
  ++ ", Forks: " ++ toString repo.forks_count ++ "\n\n"

/-- One entry of the missing-homepage section (formatters.ts:166-171). -/
def reportMissingHomepageEntry (repo : GitHubRepository) : String :=
  "- " ++ repo.name ++ "\n"
  ++ "  URL: " ++ repo.html_url ++ "\n"
  ++ "  Description: " ++ jsOr repo.description "No description" ++ "\n"
  ++ "  Language: " ++ jsOr repo.language "Not specified" ++ "\n\n"

/-- One entry of the broken-homepage section (formatters.ts:177-182).
The raw `repo.homepage` is interpolated; for a repository in this category
it is a present string, and JavaScript interpolates it verbatim. -/
def reportBrokenHomepageEntry (repo : GitHubRepository) : String :=
  "- " ++ repo.name ++ "\n"
  ++ "  URL: " ++ repo.html_url ++ "\n"
  ++ "  Current Homepage: " ++ (repo.homepage.getD "null") ++ "\n"
  ++ "  Description: " ++ jsOr repo.description "No description" ++ "\n\n"

/-- The part of the analysis report before the interpolated
`new Date().toISOString()` value (formatters.ts:141-145). -/
def analysisReportIntro (repos : List GitHubRepository) (username : String) : String :=
  "Repository Analysis Report\n"
  ++ charRun '=' 42 ++ "\n\n"
  ++ "GitHub Profile: https://github.com/" ++ username ++ "\n"
  ++ "Total Repositories: " ++ toString repos.length ++ "\n"
  ++ "Analysis Date: "

/-- The part of the analysis report after the interpolated date: summary
counts and the three conditional sections (formatters.ts:145-185). -/
def analysisReportRest (analysis : AnalysisResult) : String :=
  "\n\n"
  ++ "SUMMARY:\n"
  ++ "- " ++ toString analysis.missingDescription.length
  ++ " repositories missing descriptions\n"
  ++ "- " ++ toString analysis.missingHomepage.length
  ++ " repositories missing homepages\n"
  ++ "- " ++ toString analysis.brokenHomepage.length
  ++ " repositories with potentially broken homepages\n\n"
  ++ (if analysis.missingDescription.length > 0 then
      "REPOSITORIES MISSING DESCRIPTIONS:\n" ++ charRun '-' 40 ++ "\n"
      ++ String.join (analysis.missingDescription.map reportMissingDescriptionEntry)
    else "")
  ++ (if analysis.missingHomepage.length > 0 then
      "REPOSITORIES MISSING HOMEPAGES:\n" ++ charRun '-' 40 ++ "\n"
      ++ String.join (analysis.missingHomepage.map reportMissingHomepageEntry)
    else "")
  ++ (if analysis.brokenHomepage.length > 0 then
      "REPOSITORIES WITH POTENTIALLY BROKEN HOMEPAGES:\n" ++ charRun '-' 50 ++ "\n"
      ++ String.join (analysis.brokenHomepage.map reportBrokenHomepageEntry)
    else "")

/-- Model of `formatAnalysisReport` (formatters.ts:132).  The source
interpolates `new Date().toISOString()` into the header; that clock reading
is the explicit argument `now`. -/
def formatAnalysisReport (repos : List GitHubRepository)
    (analysis : AnalysisResult) (username : String) (now : String) : String :=
  analysisReportIntro repos username ++ now ++ analysisReportRest analysis

/-! ## Sorter (README listing, the `repos.sort` comparator) -/

/-- Insertion step of a stable comparator sort: the incoming element `x`
(earlier in the input than everything in the already-sorted list) is placed
before the first element it does not have to follow, so equal-comparing
elements keep their input order, as `Array.prototype.sort` guarantees. -/
def jsSortInsert (cmp : α → α → Int) (x : α) : List α → List α
  | [] => [x]
  | y :: ys => if cmp x y ≤ 0 then x :: y :: ys else y :: jsSortInsert cmp x ys

/-- Stable sort by a JavaScript comparator (negative: keep first argument
first), modelling `Array.prototype.sort(cmp)`, which ECMAScript requires to
be stable. -/
def jsStableSort (cmp : α → α → Int) : List α → List α
  | [] => []
  | x :: xs => jsSortInsert cmp x (jsStableSort cmp xs)

/-- The `stars` branch of the README sort comparator
(`b.stargazers_count - a.stargazers_count`, README listing line 183). -/
def starsComparator (a b : GitHubRepository) : Int :=
  (b.stargazers_count : Int) - (a.stargazers_count : Int)

/-- Sorting by the `stars` key: the README listing's
`repos.sort((a, b) => ...)` with the `stars` comparator branch. -/
def sortByStars (repos : List GitHubRepository) : List GitHubRepository :=
  jsStableSort starsComparator repos

/-! ## Edit workflows (src/cli/edit-workflows.ts) -/

/-- The deduplicated list of problematic repositories handed to batch
editing (edit-workflows.ts:522-528): the concatenation of the three defect
categories, filtered by `self.findIndex((r) => r.id === repo.id) === index`
so that only the first occurrence of each repository id survives. -/
def allProblematicRepos (analysis : AnalysisResult) : List GitHubRepository :=
  let merged := analysis.missingDescription ++ analysis.missingHomepage
    ++ analysis.brokenHomepage
  (merged.enum.filter
    (fun p => merged.findIdx (fun r => r.id == p.2.id) == p.1)).map Prod.snd

/-! ## A standard CSV reader (RFC 4180 single record)

Used to state the round-trip property of `formatAsCsv`.  A record is a
comma-separated list of fields; a field either is unquoted (and then may
contain neither comma nor quote) or is enclosed in double quotes, inside
which a literal double quote is written as two double quotes. -/

/-- Reader state: inside an unquoted field (also at a field start), inside
a quoted field, or just past the closing quote of a quoted field. -/
inductive CsvMode where
  | field
  | quoted
  | closed
  deriving DecidableEq, Repr

/-- The RFC 4180 record automaton.  `cur` is the current field read so far,
`acc` the completed fields.  Returns `none` on malformed input (stray
quote, text after a closing quote, unterminated quote). -/
def csvRun (mode : CsvMode) (cur : List Char) (acc : List String) :
    List Char → Option (List String)
  | [] =>
    match mode with
    | CsvMode.quoted => none
    | _ => some (acc ++ [String.mk cur])
  | c :: rest =>
    match mode with
    | CsvMode.field =>
      if c = ',' then csvRun CsvMode.field [] (acc ++ [String.mk cur]) rest
      else if c = '"' then
        (if cur.isEmpty then csvRun CsvMode.quoted [] acc rest else none)
      else csvRun CsvMode.field (cur ++ [c]) acc rest
    | CsvMode.quoted =>
      if c = '"' then csvRun CsvMode.closed cur acc rest
      else csvRun CsvMode.quoted (cur ++ [c]) acc rest
    | CsvMode.closed =>
      if c = ',' then csvRun CsvMode.field [] (acc ++ [String.mk cur]) rest
      else if c = '"' then csvRun CsvMode.quoted (cur ++ ['"']) acc rest
      else none

/-- Parse one CSV record (one line, without its newline) into its fields. -/
def parseCsvRecord (line : String) : Option (List String) :=
  csvRun CsvMode.field [] [] line.data

/-- Modelled from the spec: the broken-homepage rule in the specification's
own words — homepage present and ( does NOT start with `http://`,
`https://`, or `www.` OR contains the substring `localhost` OR contains the
substring `127.0.0.1` ) — read literally, i.e. with the usual
case-sensitive prefix and substring tests on the homepage as stored.  The
implementation instead lowercases the homepage before these tests. -/
def specBrokenHomepageCheck (repo : GitHubRepository) : Bool :=
  match repo.homepage with
  | none => false
  | some h =>
    if h = "" then false
    else
      (!jsStartsWith h "http://" && !jsStartsWith h "https://" &&
        !jsStartsWith h "www.")
      || jsIncludes h "localhost"
      || jsIncludes h "127.0.0.1"

/-! ## Concrete fixtures used by counterexamples and witnesses -/

/-- A baseline repository value; fixtures below override single fields. -/
def baseRepo : GitHubRepository :=
  { id := 0, name := "repo", description := none, homepage := none,
    html_url := "https://github.com/u/repo", language := none,
    stargazers_count := 0, forks_count := 0, isPrivate := false,
    owner := { login := "u" }, created_at := "2024-01-01T00:00:00Z",
    updated_at := "2024-01-02T00:00:00Z", pushed_at := "2024-01-03T00:00:00Z" }

/-- The six-homepage scenario of the analyzer classification property. -/
def analyzerScenario : List GitHubRepository :=
  [{ baseRepo with
      id := 1
      name := "r1"
      description := some "d"
      homepage := some "https://x.com" },
   { baseRepo with
      id := 2
      name := "r2"
      description := some "d"
      homepage := some "ftp://x.com" },
   { baseRepo with
      id := 3
      name := "r3"
      description := some "d"
      homepage := some "www.x.com" },
   { baseRepo with
      id := 4
      name := "r4"
      description := some "d"
      homepage := some "http://localhost:3000" },
   { baseRepo with
      id := 5
      name := "r5"
      description := some "d"
      homepage := some "" },
   { baseRepo with
      id := 6
      name := "r6"
      description := some "d"
      homepage := none }]

/-- A repository whose homepage is well formed up to letter case: the
specification's literal (case-sensitive) rule calls it broken, the
implementation's lowercasing does not. -/
def upperCaseWwwRepo : GitHubRepository :=
  { baseRepo with
    id := 7
    name := "r7"
    description := some "d"
    homepage := some "WWW.example.com" }

/-- A server-side repository list with 250 entries. -/
def server250 : List GitHubRepository :=
  (List.range 250).map (fun i => { baseRepo with id := i, name := toString i })

/-- A repository whose description contains double quotes and a comma. -/
def quotedDescriptionRepo : GitHubRepository :=
  { baseRepo with
    id := 8
    name := "r8"
    description := some "say \"hi\", please" }

/-- A repository with plain fields and nonzero counts, for exhibiting the
verbatim shape of its CSV row. -/
def plainRepo : GitHubRepository :=
  { baseRepo with
    id := 9
    name := "p"
    description := some "d"
    stargazers_count := 5
    forks_count := 2
    html_url := "u"
    created_at := "c"
    updated_at := "t"
    pushed_at := "q" }

/-- A repository whose description contains a comma but no double quote:
its CSV row does round-trip. -/
def commaDescriptionRepo : GitHubRepository :=
  { baseRepo with
    id := 10
    name := "r10"
    description := some "hello, world"
    language := some "TypeScript"
    homepage := some "https://x.com"
    stargazers_count := 12
    forks_count := 3
    isPrivate := true }

/-- Three batch update requests; the oracle below fails the second one. -/
def batchFixtureUpdates : List UpdateRequest :=
  [{ owner := "o", repo := "r1", data := { description := some "a" } },
   { owner := "o", repo := "r2", data := { description := some "b" } },
   { owner := "o", repo := "r3", data := { description := some "c" } }]

/-- An update oracle that throws on `r2` and succeeds elsewhere. -/
def batchFixtureOracle : UpdateOracle :=
  fun u => if u.repo = "r2" then Except.error "boom" else Except.ok baseRepo

/-! ## Theorems -/

/-- Claim C1: `fetchRepositories` was claimed to return all N repositories
held by the remote API by paginating with page size 100 until a short or
empty page.  The code issues a single list call with `per_page: 100` and no
loop, so a server holding 250 repositories yields only the first 100: the
fetch is not complete and the claim fails at N = 250 (and any N > 100). -/
theorem fetchRepositories_truncates_at_100 :
    server250.length = 250 ∧
    (fetchRepositories [] server250 false).length = 100 ∧
    fetchRepositories [] server250 false ≠ server250 := by
  refine ⟨by simp [server250], ?_, ?_⟩
  · simp [fetchRepositories, listReposSinglePage, server250]
  · intro h
    have hl := congrArg List.length h
    simp [fetchRepositories, listReposSinglePage, server250] at hl

/-- Claim C2: `batchUpdateRepositories` returns exactly one outcome per
input request and in input order (the outcome at index `i` is the outcome
of request `i`, tagged `owner/name`); a failing item is recorded with
`success = false` and its error message; and the batch always runs to
completion — the result is total and has full length whatever the oracle
does, so one item's failure never aborts the rest or the whole batch. -/
theorem batchUpdateRepositories_outcomes (oracle : UpdateOracle)
    (updates : List UpdateRequest) :
    (batchUpdateRepositories oracle updates).length = updates.length ∧
    ∀ (i : Nat) (u : UpdateRequest), updates[i]? = some u →
      (batchUpdateRepositories oracle updates)[i]? =
        some (updateRepositoryOutcome oracle u) ∧
      (updateRepositoryOutcome oracle u).repo = u.owner ++ "/" ++ u.repo ∧
      ∀ e, oracle u = Except.error e →
        (updateRepositoryOutcome oracle u).success = false ∧
        (updateRepositoryOutcome oracle u).error = some e := by
  refine ⟨?_, ?_⟩
  · induction updates with
    | nil => rfl
    | cons u rest ih => simp [batchUpdateRepositories, ih]
  · intro i u h
    refine ⟨?_, ?_, ?_⟩
    · induction updates generalizing i with
      | nil => simp at h
      | cons v rest ih =>
        cases i with
        | zero =>
          simp only [List.getElem?_cons_zero, Option.some.injEq] at h
          subst h
          simp [batchUpdateRepositories]
        | succ n =>
          simp only [List.getElem?_cons_succ] at h
          simpa [batchUpdateRepositories] using ih n h
    · unfold updateRepositoryOutcome
      cases oracle u <;> rfl
    · intro e he
      simp [updateRepositoryOutcome, he]

/-- Claim C2 witness: three requests of which the second one fails — three
outcomes, and the second outcome records the failure without aborting. -/
theorem batchUpdateRepositories_outcomes_witness :
    (batchUpdateRepositories batchFixtureOracle batchFixtureUpdates).length = 3 ∧
    (batchUpdateRepositories batchFixtureOracle batchFixtureUpdates)[1]? =
      some { success := false, repo := "o/r2", error := some "boom" } := by
  have hgen := batchUpdateRepositories_outcomes batchFixtureOracle batchFixtureUpdates
  refine ⟨hgen.1.trans (by decide), ?_⟩
  have h := hgen.2 1 { owner := "o", repo := "r2", data := { description := some "b" } }
    (by decide)
  rw [h.1]
  decide

/-- Claim C7: when the authentication call fails (invalid or expired
credential), `getAuthenticationInfo` catches the error and returns the
anonymous result — empty username, not authenticated — for every token;
the failure is never propagated. -/
theorem getAuthenticationInfo_error_anonymous (token : Option String)
    (authUser : Except String GitHubUser) (e : String)
    (he : authUser = Except.error e) :
    getAuthenticationInfo token authUser =
      { username := "", isAuthenticated := false } := by
  subst he
  unfold getAuthenticationInfo
  split
  · rfl
  · rfl

/-- Claim C7 witness: a concrete expired token whose authentication call
throws resolves to the anonymous result. -/
theorem getAuthenticationInfo_error_anonymous_witness :
    getAuthenticationInfo (some "ghp_expired") (Except.error "401 Unauthorized") =
      { username := "", isAuthenticated := false } :=
  getAuthenticationInfo_error_anonymous (some "ghp_expired")
    (Except.error "401 Unauthorized") "401 Unauthorized" rfl

/-- The default value of `getLastD` is irrelevant on a nonempty list. -/
theorem getLastD_default_irrel {α : Type} (l : List α) (hl : l ≠ []) (a b : α) :
    l.getLastD a = l.getLastD b := by
  cases l with
  | nil => exact absurd rfl hl
  | cons c t => rw [List.getLastD_cons, List.getLastD_cons]

/-- ASCII case folding never produces a dot from a non-dot character. -/
theorem char_toLower_eq_dot (c : Char) (h : c.toLower = '.') : c = '.' := by
  unfold Char.toLower at h
  simp only [ge_iff_le] at h
  by_cases hn : 65 ≤ c.toNat ∧ c.toNat ≤ 90
  · exfalso
    rw [if_pos hn] at h
    have hv : (c.toNat + 32).isValidChar := Or.inl (by omega)
    rw [Char.ofNat, dif_pos hv] at h
    have ht : (Char.ofNatAux (c.toNat + 32) hv).toNat = c.toNat + 32 := rfl
    rw [h] at ht
    have hd : ('.').toNat = 46 := rfl
    omega
  · rwa [if_neg hn] at h

/-- Splitting a separator-free list yields it unchanged as the only group. -/
theorem splitOnCharCore_no_sep (sep : Char) (l : List Char) (h : sep ∉ l) :
    splitOnCharCore sep l = (l, []) := by
  induction l with
  | nil => rfl
  | cons c cs ih =>
    have hc : ¬(c = sep) := fun hh => h (by simp [hh])
    have hcs : sep ∉ cs := fun hh => h (List.mem_cons_of_mem _ hh)
    simp [splitOnCharCore, hc, ih hcs]

/-- After the last separator, the final group is exactly the tail. -/
theorem splitOnCharCore_last_group (sep : Char) (xs ys : List Char)
    (h : sep ∉ ys) :
    (splitOnCharCore sep (xs ++ sep :: ys)).2 ≠ [] ∧
    ((splitOnCharCore sep (xs ++ sep :: ys)).2).getLastD [] = ys := by
  induction xs with
  | nil =>
    simp [splitOnCharCore, splitOnCharCore_no_sep sep ys h]
  | cons c cs ih =>
    by_cases hc : c = sep
    · subst hc
      simp only [List.cons_append, splitOnCharCore, eq_self_iff_true, if_true]
      refine ⟨by simp, ?_⟩
      rw [List.getLastD_cons]
      exact (getLastD_default_irrel _ ih.1 _ _).trans ih.2
    · simp only [List.cons_append, splitOnCharCore, if_neg hc]
      exact ih

/-- The last group of a split is the part after the last separator. -/
theorem splitOnChar_getLastD_append (sep : Char) (xs ys : List Char)
    (h : sep ∉ ys) :
    (splitOnChar sep (xs ++ sep :: ys)).getLastD [] = ys := by
  have hc := splitOnCharCore_last_group sep xs ys h
  unfold splitOnChar
  rw [List.getLastD_cons]
  exact (getLastD_default_irrel _ hc.1 _ _).trans hc.2

/-- Splitting a separator-free list gives one group. -/
theorem splitOnChar_no_sep (sep : Char) (l : List Char) (h : sep ∉ l) :
    splitOnChar sep l = [l] := by
  simp [splitOnChar, splitOnCharCore_no_sep sep l h]

/-- Character data of a lowercased string. -/
theorem jsToLower_data (s : String) :
    (jsToLower s).data = s.data.map Char.toLower := rfl

/-- Lowercasing distributes over string append. -/
theorem jsToLower_append (s t : String) :
    jsToLower (s ++ t) = jsToLower s ++ jsToLower t := by
  apply String.ext
  simp [jsToLower_data, String.data_append]

/-- Any filename ending in `.json` (after lowercasing) maps to `json`. -/
theorem getOutputFormat_json_ext (stem : String) :
    getOutputFormat (stem ++ ".json") = OutputFormat.json := by
  unfold getOutputFormat
  rw [jsToLower_append]
  have hd : (jsToLower stem ++ jsToLower ".json").data =
      (jsToLower stem).data ++ '.' :: ['j', 's', 'o', 'n'] := by
    rw [String.data_append]
    rfl
  rw [hd, splitOnChar_getLastD_append _ _ _ (by decide)]
  rfl

/-- Any filename ending in `.csv` maps to `csv`. -/
theorem getOutputFormat_csv_ext (stem : String) :
    getOutputFormat (stem ++ ".csv") = OutputFormat.csv := by
  unfold getOutputFormat
  rw [jsToLower_append]
  have hd : (jsToLower stem ++ jsToLower ".csv").data =
      (jsToLower stem).data ++ '.' :: ['c', 's', 'v'] := by
    rw [String.data_append]
    rfl
  rw [hd, splitOnChar_getLastD_append _ _ _ (by decide)]
  rfl

/-- For a dot-free filename the whole (lowercased) name plays the role of
the extension: the encoding is text exactly when that name is neither
`json` nor `csv`. -/
theorem getOutputFormat_no_dot (f : String) (h : '.' ∉ f.data) :
    getOutputFormat f = OutputFormat.txt ↔
      jsToLower f ≠ "json" ∧ jsToLower f ≠ "csv" := by
  have hl : '.' ∉ (jsToLower f).data := by
    rw [jsToLower_data]
    intro hm
    rcases List.mem_map.mp hm with ⟨c, hc, hcl⟩
    exact h (char_toLower_eq_dot c hcl ▸ hc)
  unfold getOutputFormat
  rw [splitOnChar_no_sep _ _ hl]
  show (match jsToLower f with
    | "json" => OutputFormat.json
    | "csv" => OutputFormat.csv
    | _ => OutputFormat.txt) = OutputFormat.txt ↔
      jsToLower f ≠ "json" ∧ jsToLower f ≠ "csv"
  split
  · next heq => simp [heq]
  · next heq => simp [heq]
  · next h1 h2 => exact iff_of_true rfl ⟨h1, h2⟩

/-- Claim C6 (amended): `getOutputFormat` is a pure function of the
filename; a `.json` extension (case-insensitive) maps to `json`, a `.csv`
extension maps to `csv`, and the four cited instances hold — but the
"extension" is the segment after the last dot with a dot-free filename
taken whole, so a filename without any dot maps to text exactly when it is
not itself (case-insensitively) `json` or `csv`. -/
theorem getOutputFormat_mapping :
    getOutputFormat "x.JSON" = OutputFormat.json ∧
    getOutputFormat "x.csv" = OutputFormat.csv ∧
    getOutputFormat "x" = OutputFormat.txt ∧
    getOutputFormat "x.txt" = OutputFormat.txt ∧
    (∀ stem : String, getOutputFormat (stem ++ ".json") = OutputFormat.json) ∧
    (∀ stem : String, getOutputFormat (stem ++ ".csv") = OutputFormat.csv) ∧
    (∀ f : String, '.' ∉ f.data →
      (getOutputFormat f = OutputFormat.txt ↔
        jsToLower f ≠ "json" ∧ jsToLower f ≠ "csv")) :=
  ⟨by decide, by decide, by decide, by decide,
   getOutputFormat_json_ext, getOutputFormat_csv_ext, getOutputFormat_no_dot⟩

/-- Claim C6 witness: the dot-free rule applied at the concrete filenames
`json` (not text) and `a.b.json`. -/
theorem getOutputFormat_mapping_witness :
    ('.' ∉ "json".data) ∧
    (getOutputFormat "json" = OutputFormat.txt ↔
      jsToLower "json" ≠ "json" ∧ jsToLower "json" ≠ "csv") ∧
    getOutputFormat ("a.b" ++ ".json") = OutputFormat.json :=
  ⟨by decide,
   getOutputFormat_mapping.2.2.2.2.2.2 "json" (by decide),
   getOutputFormat_mapping.2.2.2.2.1 "a.b"⟩

/-- Claim C6 counterexample: the filename `json` contains no dot — so it
has no extension and the claim maps it to text — yet `getOutputFormat`
returns `json` for it, because `split(".").pop()` of a dot-free name is
the whole name. -/
theorem getOutputFormat_extensionless_json :
    "json".data.contains '.' = false ∧
    getOutputFormat "json" = OutputFormat.json ∧
    getOutputFormat "json" ≠ OutputFormat.txt := by
  refine ⟨by decide, by decide, by decide⟩

/-- Claim C10: the list handed to batch editing — the concatenation of
`missingDescription`, `missingHomepage` and `brokenHomepage`, deduplicated
by the `findIndex` filter — contains every repository id at most once,
whatever the analysis result holds. -/
theorem allProblematicRepos_ids_nodup (analysis : AnalysisResult) :
    ((allProblematicRepos analysis).map (fun r => r.id)).Nodup := by
  unfold allProblematicRepos
  rw [List.map_map]
  have hnd : ((analysis.missingDescription ++ analysis.missingHomepage ++
      analysis.brokenHomepage).enum.filter
      (fun p => (analysis.missingDescription ++ analysis.missingHomepage ++
        analysis.brokenHomepage).findIdx (fun r => r.id == p.2.id) == p.1)).Nodup := by
    have h1 : (analysis.missingDescription ++ analysis.missingHomepage ++
        analysis.brokenHomepage).enum.Nodup :=
      (List.nodup_enum_map_fst _).of_map
    exact h1.filter _
  refine List.Nodup.map_on ?_ hnd
  intro p hp q hq hpq
  simp only [Function.comp] at hpq
  have hp' := List.mem_filter.mp hp
  have hq' := List.mem_filter.mp hq
  have hip : (analysis.missingDescription ++ analysis.missingHomepage ++
      analysis.brokenHomepage).findIdx (fun r => r.id == p.2.id) = p.1 := by
    simpa using hp'.2
  have hiq : (analysis.missingDescription ++ analysis.missingHomepage ++
      analysis.brokenHomepage).findIdx (fun r => r.id == q.2.id) = q.1 := by
    simpa using hq'.2
  rw [hpq] at hip
  have hidx : p.1 = q.1 := hip.symm.trans hiq
  have hgp := List.mem_enum_iff_getElem?.mp hp'.1
  have hgq := List.mem_enum_iff_getElem?.mp hq'.1
  rw [← hidx] at hgq
  rw [hgp] at hgq
  exact Prod.ext hidx (Option.some.inj hgq)

/-- Claim C4 (amended): the text, JSON and CSV encodings are pure
functions of the repositories and username, but the analysis-report
encoding additionally reads the clock: its output is a pure function of
repositories, analysis, username and the clock value, and two reports over
identical inputs coincide exactly when the interpolated clock values do. -/
theorem formatAnalysisReport_eq_iff_same_clock (repos : List GitHubRepository)
    (analysis : AnalysisResult) (username : String) (t1 t2 : String) :
    formatAnalysisReport repos analysis username t1 =
      formatAnalysisReport repos analysis username t2 ↔ t1 = t2 := by
  constructor
  · intro h
    unfold formatAnalysisReport at h
    rw [String.ext_iff] at h
    simp only [String.data_append] at h
    exact String.ext (List.append_cancel_left (List.append_cancel_right h))
  · intro h
    rw [h]

/-- Claim C4 counterexample: two calls of the analysis-report formatter on
the same repositories, analysis result and username, made at different
clock instants, produce different output strings — the formatter is not a
pure function of those three inputs alone. -/
theorem formatAnalysisReport_clock_dependent :
    formatAnalysisReport [] (findRepositoriesNeedingUpdate []) "u"
      "2024-01-01T00:00:00.000Z" ≠
    formatAnalysisReport [] (findRepositoriesNeedingUpdate []) "u"
      "2024-01-02T00:00:00.000Z" := by
  decide

/-- The implementation's broken-homepage test, characterised: present,
nonempty, and failing the lowercased prefix test or containing (after
lowercasing) `localhost` or `127.0.0.1`. -/
theorem brokenHomepageCheck_iff (r : GitHubRepository) :
    brokenHomepageCheck r = true ↔
      ∃ h, r.homepage = some h ∧ h ≠ "" ∧
        ((jsStartsWith (jsToLower h) "http://" = false ∧
          jsStartsWith (jsToLower h) "https://" = false ∧
          jsStartsWith (jsToLower h) "www." = false) ∨
         jsIncludes (jsToLower h) "localhost" = true ∨
         jsIncludes (jsToLower h) "127.0.0.1" = true) := by
  cases hh : r.homepage with
  | none => simp [brokenHomepageCheck, hh]
  | some h =>
    by_cases he : h = ""
    · subst he
      simp [brokenHomepageCheck, hh]
    · simp only [brokenHomepageCheck, hh, if_neg he, Option.some.injEq]
      constructor
      · intro hb
        refine ⟨h, rfl, he, ?_⟩
        simp only [Bool.or_eq_true, Bool.and_eq_true, Bool.not_eq_true'] at hb
        tauto
      · rintro ⟨h2, hh2, -, hcond⟩
        subst hh2
        simp only [Bool.or_eq_true, Bool.and_eq_true, Bool.not_eq_true']
        tauto

/-- Claim C5 (amended): a repository lands in `brokenHomepage` exactly when
its homepage is present, nonempty, and — after lowercasing — starts with
none of `http://`, `https://`, `www.` or contains `localhost` or
`127.0.0.1`; and on the six cited homepages exactly `ftp://x.com` and
`http://localhost:3000` are broken, empty and absent land in
`missingHomepage`, and `www.x.com` lands in no defect category. -/
theorem brokenHomepage_lowercase_rule :
    (∀ (repos : List GitHubRepository) (r : GitHubRepository),
      r ∈ (findRepositoriesNeedingUpdate repos).brokenHomepage ↔
        r ∈ repos ∧ ∃ h, r.homepage = some h ∧ h ≠ "" ∧
          ((jsStartsWith (jsToLower h) "http://" = false ∧
            jsStartsWith (jsToLower h) "https://" = false ∧
            jsStartsWith (jsToLower h) "www." = false) ∨
           jsIncludes (jsToLower h) "localhost" = true ∨
           jsIncludes (jsToLower h) "127.0.0.1" = true)) ∧
    (findRepositoriesNeedingUpdate analyzerScenario).brokenHomepage.map
      (fun r => r.name) = ["r2", "r4"] ∧
    (findRepositoriesNeedingUpdate analyzerScenario).missingHomepage.map
      (fun r => r.name) = ["r5", "r6"] ∧
    (findRepositoriesNeedingUpdate analyzerScenario).missingDescription = [] := by
  refine ⟨?_, by decide, by decide, by decide⟩
  intro repos r
  rw [show (findRepositoriesNeedingUpdate repos).brokenHomepage =
    repos.filter brokenHomepageCheck from rfl]
  rw [List.mem_filter, brokenHomepageCheck_iff]

/-- Claim C5 counterexample: the homepage `WWW.example.com` is present and
satisfies the claim's case-sensitive rule (it starts with none of the three
prefixes as written and contains neither `localhost` nor `127.0.0.1`), yet
the implementation does not classify it as broken, because it lowercases
the homepage before the prefix test. -/
theorem brokenHomepage_spec_rule_mismatch :
    specBrokenHomepageCheck upperCaseWwwRepo = true ∧
    upperCaseWwwRepo.homepage = some "WWW.example.com" ∧
    (findRepositoriesNeedingUpdate [upperCaseWwwRepo]).brokenHomepage = [] := by
  refine ⟨by decide, by decide, by decide⟩

/-- Inserting into the stable sort permutes a cons. -/
theorem starsInsert_perm (x : GitHubRepository) (l : List GitHubRepository) :
    (jsSortInsert starsComparator x l).Perm (x :: l) := by
  induction l with
  | nil => exact List.Perm.refl _
  | cons y ys ih =>
    by_cases hc : starsComparator x y ≤ 0
    · rw [jsSortInsert, if_pos hc]
    · rw [jsSortInsert, if_neg hc]
      exact (ih.cons y).trans (List.Perm.swap x y ys)

/-- Insertion preserves the descending-by-stars invariant. -/
theorem starsInsert_pairwise (x : GitHubRepository) (l : List GitHubRepository)
    (hl : l.Pairwise (fun a b => b.stargazers_count ≤ a.stargazers_count)) :
    (jsSortInsert starsComparator x l).Pairwise
      (fun a b => b.stargazers_count ≤ a.stargazers_count) := by
  induction l with
  | nil => simp [jsSortInsert]
  | cons y ys ih =>
    rcases List.pairwise_cons.mp hl with ⟨hy, hys⟩
    by_cases hc : starsComparator x y ≤ 0
    · rw [jsSortInsert, if_pos hc]
      have hxy : y.stargazers_count ≤ x.stargazers_count := by
        simp only [starsComparator] at hc
        omega
      refine List.pairwise_cons.mpr ⟨?_, hl⟩
      intro z hz
      rcases List.mem_cons.mp hz with rfl | hz2
      · exact hxy
      · exact Nat.le_trans (hy z hz2) hxy
    · rw [jsSortInsert, if_neg hc]
      have hyx : x.stargazers_count < y.stargazers_count := by
        simp only [starsComparator] at hc
        omega
      refine List.pairwise_cons.mpr ⟨?_, ih hys⟩
      intro z hz
      have hz2 : z ∈ x :: ys := (starsInsert_perm x ys).mem_iff.mp hz
      rcases List.mem_cons.mp hz2 with rfl | hz3
      · exact Nat.le_of_lt hyx
      · exact hy z hz3

/-- Insertion does not disturb the subsequence of any fixed star count:
the element only ever passes elements with strictly more stars. -/
theorem starsInsert_filter (x : GitHubRepository) (l : List GitHubRepository)
    (s : Nat) :
    (jsSortInsert starsComparator x l).filter
      (fun r => r.stargazers_count == s) =
    (x :: l).filter (fun r => r.stargazers_count == s) := by
  induction l with
  | nil => rfl
  | cons y ys ih =>
    by_cases hc : starsComparator x y ≤ 0
    · rw [jsSortInsert, if_pos hc]
    · rw [jsSortInsert, if_neg hc]
      cases hpx : (x.stargazers_count == s) <;> cases hpy : (y.stargazers_count == s)
      · simp [List.filter_cons, hpx, hpy, ih]
      · simp [List.filter_cons, hpx, hpy, ih]
      · simp [List.filter_cons, hpx, hpy, ih]
      · exfalso
        simp only [starsComparator] at hc
        have h1 : x.stargazers_count = s := by simpa using hpx
        have h2 : y.stargazers_count = s := by simpa using hpy
        omega

/-- Claim C8: sorting by the `stars` key orders the repositories descending
by star count, is stable — for every star count the subsequence of
repositories with that count is exactly as in the input, so ties keep
their relative input order — and is a permutation of the input. -/
theorem sortByStars_sorted_stable (repos : List GitHubRepository) :
    (sortByStars repos).Pairwise
      (fun a b => b.stargazers_count ≤ a.stargazers_count) ∧
    (∀ s : Nat, (sortByStars repos).filter (fun r => r.stargazers_count == s) =
      repos.filter (fun r => r.stargazers_count == s)) ∧
    (sortByStars repos).Perm repos := by
  refine ⟨?_, ?_, ?_⟩
  · induction repos with
    | nil => simp [sortByStars, jsStableSort]
    | cons x xs ih =>
      exact starsInsert_pairwise x (sortByStars xs) ih
  · intro s
    induction repos with
    | nil => rfl
    | cons x xs ih =>
      rw [show sortByStars (x :: xs) =
        jsSortInsert starsComparator x (sortByStars xs) from rfl]
      rw [starsInsert_filter]
      simp [List.filter_cons, ih]
  · induction repos with
    | nil => exact List.Perm.refl _
    | cons x xs ih =>
      exact (starsInsert_perm x (sortByStars xs)).trans (ih.cons x)

/-- Claim C9: the JSON document written by `formatAsJson` — the value that
`JSON.parse` recovers from its output — carries exactly the input's
total/public/private counts, and its `repositories` array lists exactly the
input repositories' names in order (in particular the same set of names). -/
theorem formatAsJson_roundtrip (repos : List GitHubRepository)
    (username : String) :
    (formatAsJsonDoc repos username).lookup "total_repositories" =
      some (Json.num repos.length) ∧
    (formatAsJsonDoc repos username).lookup "public_repositories" =
      some (Json.num (repos.countP (fun r => !r.isPrivate))) ∧
    (formatAsJsonDoc repos username).lookup "private_repositories" =
      some (Json.num (repos.countP (fun r => r.isPrivate))) ∧
    jsonRepositoryNames (formatAsJsonDoc repos username) =
      some (repos.map (fun r => Json.str r.name)) := by
  refine ⟨?_, ?_, ?_, ?_⟩
  · simp [formatAsJsonDoc, Json.lookup, List.lookup]
  · simp [formatAsJsonDoc, Json.lookup, List.lookup, List.countP_eq_length_filter]
  · simp [formatAsJsonDoc, Json.lookup, List.lookup, List.countP_eq_length_filter]
  · simp [formatAsJsonDoc, jsonRepositoryNames, Json.lookup, Json.asArr,
      List.lookup, List.map_map, formattedRepositoryJson, Function.comp]

/-- Rebuilding a string from its character data is the identity. -/
theorem string_mk_data (s : String) : String.mk s.data = s := rfl

/-- Character data of a quoted CSV field. -/
theorem csvQuote_data (s : String) :
    (csvQuote s).data = '"' :: (s.data ++ ['"']) := by
  simp [csvQuote, String.data_append]

/-- Character data of a comma join, one field at a time. -/
theorem joinComma_data_cons (f g : String) (rest : List String) :
    (joinComma (f :: g :: rest)).data =
      f.data ++ ',' :: (joinComma (g :: rest)).data := by
  simp [joinComma, String.data_append]

/-- End of record in an unquoted field: emit the field. -/
theorem csvRun_field_nil (cur : List Char) (acc : List String) :
    csvRun CsvMode.field cur acc [] = some (acc ++ [String.mk cur]) := rfl

/-- End of record after a closing quote: emit the field. -/
theorem csvRun_closed_nil (cur : List Char) (acc : List String) :
    csvRun CsvMode.closed cur acc [] = some (acc ++ [String.mk cur]) := rfl

/-- A comma in an unquoted field closes it. -/
theorem csvRun_field_comma (cur : List Char) (acc : List String)
    (rest : List Char) :
    csvRun CsvMode.field cur acc (',' :: rest) =
      csvRun CsvMode.field [] (acc ++ [String.mk cur]) rest := by
  simp [csvRun]

/-- A quote at field start opens a quoted field. -/
theorem csvRun_field_quote (acc : List String) (rest : List Char) :
    csvRun CsvMode.field [] acc ('"' :: rest) =
      csvRun CsvMode.quoted [] acc rest := by
  simp [csvRun]

/-- A quote inside a quoted field tentatively closes it. -/
theorem csvRun_quoted_quote (cur : List Char) (acc : List String)
    (rest : List Char) :
    csvRun CsvMode.quoted cur acc ('"' :: rest) =
      csvRun CsvMode.closed cur acc rest := by
  simp [csvRun]

/-- A comma after a closing quote emits the quoted field. -/
theorem csvRun_closed_comma (cur : List Char) (acc : List String)
    (rest : List Char) :
    csvRun CsvMode.closed cur acc (',' :: rest) =
      csvRun CsvMode.field [] (acc ++ [String.mk cur]) rest := by
  simp [csvRun]

/-- Quote-free text inside a quoted field is consumed verbatim. -/
theorem csvRun_quoted_consume (s : List Char) (hs : '"' ∉ s)
    (cur : List Char) (acc : List String) (rest : List Char) :
    csvRun CsvMode.quoted cur acc (s ++ rest) =
      csvRun CsvMode.quoted (cur ++ s) acc rest := by
  induction s generalizing cur with
  | nil => simp
  | cons c cs ih =>
    have hc : ¬(c = '"') := fun hh => hs (by simp [hh])
    have hcs : '"' ∉ cs := fun hh => hs (List.mem_cons_of_mem _ hh)
    rw [List.cons_append]
    rw [show csvRun CsvMode.quoted cur acc (c :: (cs ++ rest)) =
      csvRun CsvMode.quoted (cur ++ [c]) acc (cs ++ rest) from by simp [csvRun, hc]]
    rw [ih hcs (cur ++ [c])]
    simp

/-- Comma-free, quote-free text in an unquoted field is consumed verbatim. -/
theorem csvRun_field_consume (s : List Char)
    (hs : ∀ c ∈ s, c ≠ ',' ∧ c ≠ '"')
    (cur : List Char) (acc : List String) (rest : List Char) :
    csvRun CsvMode.field cur acc (s ++ rest) =
      csvRun CsvMode.field (cur ++ s) acc rest := by
  induction s generalizing cur with
  | nil => simp
  | cons c cs ih =>
    have hc := hs c (by simp)
    have hcs : ∀ c2 ∈ cs, c2 ≠ ',' ∧ c2 ≠ '"' :=
      fun c2 h2 => hs c2 (List.mem_cons_of_mem _ h2)
    rw [List.cons_append]
    rw [show csvRun CsvMode.field cur acc (c :: (cs ++ rest)) =
      csvRun CsvMode.field (cur ++ [c]) acc (cs ++ rest) from by
        simp [csvRun, hc.1, hc.2]]
    rw [ih hcs (cur ++ [c])]
    simp

/-- Reading one quoted quote-free field followed by a comma. -/
theorem csvRun_quotedField_comma (s : String) (hs : '"' ∉ s.data)
    (acc : List String) (rest : List Char) :
    csvRun CsvMode.field [] acc ((csvQuote s).data ++ ',' :: rest) =
      csvRun CsvMode.field [] (acc ++ [s]) rest := by
  rw [csvQuote_data]
  rw [show ('"' :: (s.data ++ ['"'])) ++ ',' :: rest =
    '"' :: (s.data ++ ('"' :: ',' :: rest)) from by simp]
  rw [csvRun_field_quote, csvRun_quoted_consume s.data hs [] acc]
  rw [List.nil_append]
  rw [csvRun_quoted_quote, csvRun_closed_comma, string_mk_data]

/-- Reading a final quoted quote-free field at end of record. -/
theorem csvRun_quotedField_last (s : String) (hs : '"' ∉ s.data)
    (acc : List String) :
    csvRun CsvMode.field [] acc ((csvQuote s).data) = some (acc ++ [s]) := by
  rw [csvQuote_data]
  rw [show ('"' :: (s.data ++ ['"'])) = '"' :: (s.data ++ ('"' :: [])) from by simp]
  rw [csvRun_field_quote, csvRun_quoted_consume s.data hs [] acc]
  rw [List.nil_append]
  rw [csvRun_quoted_quote, csvRun_closed_nil, string_mk_data]

/-- Reading one bare (unquoted) field followed by a comma. -/
theorem csvRun_bareField_comma (s : String)
    (hs : ∀ c ∈ s.data, c ≠ ',' ∧ c ≠ '"')
    (acc : List String) (rest : List Char) :
    csvRun CsvMode.field [] acc (s.data ++ ',' :: rest) =
      csvRun CsvMode.field [] (acc ++ [s]) rest := by
  rw [csvRun_field_consume s.data hs [] acc]
  rw [List.nil_append]
  rw [csvRun_field_comma, string_mk_data]

/-- Decimal digit characters are never a comma or a quote. -/
theorem digitChar_ne (n : Nat) :
    Nat.digitChar n ≠ ',' ∧ Nat.digitChar n ≠ '"' := by
  match n with
  | 0 | 1 | 2 | 3 | 4 | 5 | 6 | 7 | 8 | 9 | 10 | 11 | 12 | 13 | 14 | 15 =>
    exact ⟨by decide, by decide⟩
  | (m + 16) =>
    rw [show Nat.digitChar (m + 16) = '*' from by simp [Nat.digitChar]]
    exact ⟨by decide, by decide⟩

/-- All characters produced by the digit accumulator are safe. -/
theorem toDigitsCore_chars (b : Nat) (fuel : Nat) :
    ∀ (n : Nat) (acc : List Char),
      (∀ c ∈ acc, c ≠ ',' ∧ c ≠ '"') →
      ∀ c ∈ Nat.toDigitsCore b fuel n acc, c ≠ ',' ∧ c ≠ '"' := by
  induction fuel with
  | zero =>
    intro n acc hacc c hc
    exact hacc c (by simpa [Nat.toDigitsCore] using hc)
  | succ fuel ih =>
    intro n acc hacc c hc
    simp only [Nat.toDigitsCore] at hc
    by_cases hz : n / b = 0
    · rw [if_pos hz] at hc
      rcases List.mem_cons.mp hc with rfl | h2
      · exact digitChar_ne _
      · exact hacc c h2
    · rw [if_neg hz] at hc
      refine ih (n / b) (Nat.digitChar (n % b) :: acc) ?_ c hc
      intro c2 h2
      rcases List.mem_cons.mp h2 with rfl | h3
      · exact digitChar_ne _
      · exact hacc c2 h3

/-- Rendered naturals contain neither comma nor quote. -/
theorem natToString_chars (n : Nat) :
    ∀ c ∈ (toString n).data, c ≠ ',' ∧ c ≠ '"' :=
  toDigitsCore_chars 10 (n + 1) n [] (by simp)

/-- The rendered `private` flag contains neither comma nor quote. -/
theorem boolField_chars (b : Bool) :
    ∀ c ∈ (if b then "true" else "false").data, c ≠ ',' ∧ c ≠ '"' := by
  cases b <;> decide

/-- Claim C3 (amended): in a `formatAsCsv` data row the string-valued
fields are wrapped in double quotes with the raw value inserted verbatim
(no escaping) and the stars/forks/private fields are bare; consequently a
row round-trips through a standard RFC 4180 CSV reader — commas inside
quoted fields included — exactly as long as no field value contains a
double quote character, in which case all eleven original field values are
recovered. -/
theorem formatAsCsv_row_roundtrip (repo : GitHubRepository)
    (hname : '"' ∉ repo.name.data)
    (hdesc : '"' ∉ (jsOr repo.description "").data)
    (hlang : '"' ∉ (jsOr repo.language "").data)
    (hhome : '"' ∉ (jsOr repo.homepage "").data)
    (hurl : '"' ∉ repo.html_url.data)
    (hcr : '"' ∉ repo.created_at.data)
    (hup : '"' ∉ repo.updated_at.data)
    (hpu : '"' ∉ repo.pushed_at.data) :
    parseCsvRecord (csvRow repo) =
      some [repo.name, jsOr repo.description "",
        toString repo.stargazers_count, toString repo.forks_count,
        jsOr repo.language "", (if repo.isPrivate then "true" else "false"),
        jsOr repo.homepage "", repo.html_url, repo.created_at,
        repo.updated_at, repo.pushed_at] := by
  show csvRun CsvMode.field [] []
    (joinComma [csvQuote repo.name, csvQuote (jsOr repo.description ""),
      toString repo.stargazers_count, toString repo.forks_count,
      csvQuote (jsOr repo.language ""),
      (if repo.isPrivate then "true" else "false"),
      csvQuote (jsOr repo.homepage ""), csvQuote repo.html_url,
      csvQuote repo.created_at, csvQuote repo.updated_at,
      csvQuote repo.pushed_at]).data = _
  rw [joinComma_data_cons, csvRun_quotedField_comma _ hname]
  rw [joinComma_data_cons, csvRun_quotedField_comma _ hdesc]
  rw [joinComma_data_cons, csvRun_bareField_comma _ (natToString_chars _)]
  rw [joinComma_data_cons, csvRun_bareField_comma _ (natToString_chars _)]
  rw [joinComma_data_cons, csvRun_quotedField_comma _ hlang]
  rw [joinComma_data_cons, csvRun_bareField_comma _ (boolField_chars _)]
  rw [joinComma_data_cons, csvRun_quotedField_comma _ hhome]
  rw [joinComma_data_cons, csvRun_quotedField_comma _ hurl]
  rw [joinComma_data_cons, csvRun_quotedField_comma _ hcr]
  rw [joinComma_data_cons, csvRun_quotedField_comma _ hup]
  rw [show joinComma [csvQuote repo.pushed_at] = csvQuote repo.pushed_at from rfl]
  rw [csvRun_quotedField_last _ hpu]
  simp

/-- Claim C3 witness: a description containing a comma (but no quote)
round-trips through the CSV reader with all eleven fields recovered. -/
theorem formatAsCsv_row_roundtrip_witness :
    parseCsvRecord (csvRow commaDescriptionRepo) =
      some ["r10", "hello, world", "12", "3", "TypeScript", "true",
        "https://x.com", "https://github.com/u/repo", "2024-01-01T00:00:00Z",
        "2024-01-02T00:00:00Z", "2024-01-03T00:00:00Z"] := by
  have h := formatAsCsv_row_roundtrip commaDescriptionRepo (by decide) (by decide)
    (by decide) (by decide) (by decide) (by decide) (by decide) (by decide)
  rw [h]
  decide

/-- Claim C3 counterexample: a description with embedded double quotes is
inserted verbatim, so the row is malformed for a standard CSV reader (the
parse fails, hence no round trip recovers the original value); and the row
of a plain repository shows the stars, forks and private fields bare, so
not every field is quoted. -/
theorem formatAsCsv_quote_escape_missing :
    quotedDescriptionRepo.description = some "say \"hi\", please" ∧
    parseCsvRecord (csvRow quotedDescriptionRepo) = none ∧
    csvRow plainRepo = "\"p\",\"d\",5,2,\"\",false,\"\",\"u\",\"c\",\"t\",\"q\"" := by
  refine ⟨by decide, by decide, by decide⟩

end RepoFetcher
